import Mathlib

/-!
Shallow embedding of `src/service_functions/embeddings/src/feature_extractor.py`.

The module converts rows of raw text into dense vector embeddings.  Python
constructs are modelled as follows:

* dataclasses become structures;
* the module-global `embedding_pipeline` cache becomes explicit state passing:
  `extract_embeddings` receives the current `Option (Pipeline α)` and returns
  the new one alongside its result;
* the external HuggingFace / torch world (tokenizer loading, model loading,
  the callable pipeline, CUDA availability) is an `Env` parameter carrying a
  deterministic backend function; the pipeline object built by
  `_create_embedding_pipeline` records the construction arguments exactly as
  the source passes them;
* a Python expression that may raise (`rows[idx]`, `embedding[0][0]`) is
  modelled with `Option`; a list comprehension over raise-capable expressions
  is `mapOption` (failure of any element fails the whole comprehension);
* the numeric scalar type of an embedding component is an abstract `α` with a
  `ToString` instance, mirroring Python's `str` applied to each component.
-/

namespace FeatureExtractor

/-- The hardcoded model-asset cache directory of the source module. -/
def model_cache_dir : String := "/tmp/model_cache/"

/-- Python dataclass `ModelConfiguration`.  The source annotates `model_name`
with `int` (a flagged inconsistency in its docs); the annotation is kept. -/
structure ModelConfiguration where
  model_name : Int
  tokenizer_name : String
deriving Repr, DecidableEq

/-- Python dataclass `InputRow`. -/
structure InputRow where
  idx : Int
  text : String
deriving Repr, DecidableEq

/-- Python dataclass `OutputRow`. -/
structure OutputRow where
  idx : Int
  embeddings : String
deriving Repr, DecidableEq

/-- A loaded tokenizer: `AutoTokenizer.from_pretrained` result, recording the
arguments the source passes. -/
structure Tokenizer where
  name : String
  padding : Bool
  truncation : Bool
  return_tensors : String
  model_max_length : Nat
  cache_dir : String
  force_download : Bool
deriving Repr, DecidableEq

/-- A loaded model: `AutoModel.from_pretrained` result plus the `.half()`
conversion flag, recording the arguments the source passes. -/
structure PretrainedModel where
  name : Int
  trust_remote_code : Bool
  rotary_scaling_factor : Nat
  cache_dir : String
  force_download : Bool
  half_precision : Bool
deriving Repr, DecidableEq

/-- One embedding as returned by the feature-extraction pipeline for one text:
nested lists such that `e[0][0]` is the usable vector of scalar components. -/
abbrev Embedding (α : Type) := List (List (List α))

/-- The constructed `pipeline(...)` object: a callable bundling the loaded
model and tokenizer, the device string, and the batch size. -/
structure Pipeline (α : Type) where
  task : String
  model : PretrainedModel
  tokenizer : Tokenizer
  device : String
  batch_size : Int
  run : List String → List (Embedding α)

/-- The external world: CUDA availability and device count as reported by
torch, and the inference backend that the HuggingFace `pipeline` call wires a
constructed pipeline to.  The backend is a pure function, modelling a
deterministic inference engine. -/
structure Env (α : Type) where
  cuda_available : Bool
  device_count : Nat
  backend : PretrainedModel → Tokenizer → String → Int → List String → List (Embedding α)

/-- Python `_get_cuda_device`: always returns device index 0. -/
def _get_cuda_device : Int := 0

/-- Python `_create_embedding_pipeline(device, batch_size, model_config)`. -/
def _create_embedding_pipeline (env : Env α) (device : Int) (batch_size : Int)
    (model_config : ModelConfiguration) : Pipeline α :=
  let tokenizer : Tokenizer :=
    { name := model_config.tokenizer_name, padding := true, truncation := true,
      return_tensors := "pt", model_max_length := 4096,
      cache_dir := model_cache_dir, force_download := false }
  let model0 : PretrainedModel :=
    { name := model_config.model_name, trust_remote_code := true,
      rotary_scaling_factor := 2, cache_dir := model_cache_dir,
      force_download := false, half_precision := false }
  let model : PretrainedModel := { model0 with half_precision := true }
  let device_str : String :=
    if env.cuda_available then "cuda:" ++ toString device else "cpu"
  { task := "feature-extraction", model := model, tokenizer := tokenizer,
    device := device_str, batch_size := batch_size,
    run := env.backend model tokenizer device_str batch_size }

/-- A Python list comprehension whose element expressions may raise: the whole
comprehension fails if any element fails. -/
def mapOption (f : β → Option γ) : List β → Option (List γ)
  | [] => some []
  | x :: xs =>
    match f x, mapOption f xs with
    | some y, some ys => some (y :: ys)
    | _, _ => none

/-- Python `' '.join(map(str, embedding[0][0]))`: fails (IndexError) when the
nested structure lacks a first sub-element or first vector. -/
def renderEmbedding [ToString α] : Embedding α → Option String
  | (v :: _) :: _ => some (String.intercalate " " (v.map toString))
  | _ => none

/-- The dict built by `_execute_inference`. -/
structure InferenceResults where
  inputs : List String
  outputs : List String
  index : Int
deriving Repr, DecidableEq

/-- Python `_execute_inference(embedding_pipeline, input_batch)`: runs the
pipeline callable on the batch, renders each produced embedding, and returns
the results dict. -/
def _execute_inference [ToString α] (pipelineRun : List String → List (Embedding α))
    (input_batch : List String) : Option InferenceResults :=
  let results : InferenceResults := { inputs := [], outputs := [], index := 0 }
  let embeddings := pipelineRun input_batch
  match mapOption renderEmbedding embeddings with
  | none => none
  | some outputs =>
    some { results with
           inputs := results.inputs ++ input_batch,
           outputs := results.outputs ++ outputs,
           index := 0 }

/-- Python `_generate_embedding_sync`. -/
def _generate_embedding_sync [ToString α] (embedding_pipeline : Pipeline α)
    (input_texts : List String) : Option (List String) :=
  (_execute_inference embedding_pipeline.run input_texts).map (·.outputs)

/-- Lines 54-56 of the source: the pipeline used by a call is the cached one
when the global is set, else the one freshly constructed. -/
def currentPipeline (env : Env α) (batch_size : Int)
    (model_config : ModelConfiguration) :
    Option (Pipeline α) → Pipeline α
  | none => _create_embedding_pipeline env _get_cuda_device batch_size model_config
  | some p => p

/-- The element expression of the output comprehension on line 58 of the
source: `OutputRow(idx=rows[idx].idx, embeddings=result['outputs'][idx])`,
where either subscript may raise IndexError. -/
def buildOutputRow (rows : List InputRow) (outputs : List String) (idx : Nat) :
    Option OutputRow :=
  match rows[idx]?, outputs[idx]? with
  | some row, some out => some { idx := row.idx, embeddings := out }
  | _, _ => none

/-- Python `extract_embeddings(rows, batch_size, model_config)`.  The global
`embedding_pipeline` is passed in and returned explicitly.  The output list
comprehension iterates `idx` over `range(len(result['outputs']))`, reading
`rows[idx].idx` and `result['outputs'][idx]` (either read may raise). -/
def extract_embeddings [ToString α] (env : Env α) (rows : List InputRow)
    (batch_size : Int) (model_config : ModelConfiguration)
    (embedding_pipeline : Option (Pipeline α)) :
    Option (List OutputRow) × Option (Pipeline α) :=
  let texts := rows.map (·.text)
  let pipe := currentPipeline env batch_size model_config embedding_pipeline
  match _execute_inference pipe.run texts with
  | none => (none, some pipe)
  | some result =>
    (mapOption (buildOutputRow rows result.outputs) (List.range result.outputs.length),
     some pipe)

/-! Concrete fixtures used to exercise the theorems on executable inputs. -/

/-- A concrete model configuration. -/
def cfgW : ModelConfiguration := { model_name := 0, tokenizer_name := "tok" }

/-- A well-behaved environment: no CUDA, one device, and a backend producing
exactly one trivial embedding per input text. -/
def envW : Env Int :=
  { cuda_available := false, device_count := 1,
    backend := fun _ _ _ _ texts => texts.map fun _ => [[[0]]] }

/-- An environment whose backend always returns exactly one embedding,
whatever the batch — a count-mismatching inference engine. -/
def envOne : Env Int :=
  { cuda_available := false, device_count := 1,
    backend := fun _ _ _ _ _ => [[[[5]]]] }

/-- An environment that agrees with `envW` on every nonempty batch but
returns one phantom embedding on the empty batch.  Since `extract_embeddings`
feeds the empty text list to the inference step, the two environments make
the empty-batch call observably differ. -/
def envPhantom : Env Int :=
  { cuda_available := false, device_count := 1,
    backend := fun _ _ _ _ texts =>
      if texts.isEmpty then [[[[0]]]] else texts.map fun _ => [[[0]]] }

/-- A concrete two-row batch with distinct indices. -/
def rowsW : List InputRow := [{ idx := 7, text := "a" }, { idx := 3, text := "b" }]

/-- A concrete pipeline, as constructed on a first call with batch size 1. -/
def pipeW : Pipeline Int := _create_embedding_pipeline envW _get_cuda_device 1 cfgW

/-! Helper lemmas about `mapOption`. -/

/-- A successful comprehension has one element per iteration. -/
theorem mapOption_length {β γ : Type} {f : β → Option γ} :
    ∀ {xs : List β} {ys : List γ}, mapOption f xs = some ys → ys.length = xs.length := by
  intro xs
  induction xs with
  | nil =>
    intro ys h
    simp only [mapOption, Option.some.injEq] at h
    simp [← h]
  | cons x xs ih =>
    intro ys h
    cases hfx : f x with
    | none => simp [mapOption, hfx] at h
    | some y =>
      cases hxs : mapOption f xs with
      | none => simp [mapOption, hfx, hxs] at h
      | some zs =>
        simp only [mapOption, hfx, hxs, Option.some.injEq] at h
        simp [← h, ih hxs]

/-- Positional correspondence through a successful comprehension. -/
theorem mapOption_getElem? {β γ : Type} {f : β → Option γ} :
    ∀ {xs : List β} {ys : List γ}, mapOption f xs = some ys →
      ∀ {i : Nat} {x : β}, xs[i]? = some x → ∃ y, ys[i]? = some y ∧ f x = some y := by
  intro xs
  induction xs with
  | nil =>
    intro ys _ i x hx
    simp at hx
  | cons a as ih =>
    intro ys h i x hx
    cases hfa : f a with
    | none => simp [mapOption, hfa] at h
    | some y =>
      cases has : mapOption f as with
      | none => simp [mapOption, hfa, has] at h
      | some zs =>
        simp only [mapOption, hfa, has, Option.some.injEq] at h
        subst h
        cases i with
        | zero =>
          simp at hx
          subst hx
          exact ⟨y, by simp, hfa⟩
        | succ j =>
          simp only [List.getElem?_cons_succ] at hx ⊢
          exact ih has hx

/-- A comprehension all of whose element expressions succeed, succeeds. -/
theorem mapOption_isSome {β γ : Type} {f : β → Option γ} :
    ∀ {xs : List β}, (∀ x ∈ xs, (f x).isSome) → ∃ ys, mapOption f xs = some ys := by
  intro xs
  induction xs with
  | nil => exact fun _ => ⟨[], rfl⟩
  | cons a as ih =>
    intro hall
    obtain ⟨y, hy⟩ := Option.isSome_iff_exists.mp (hall a (List.mem_cons_self a as))
    obtain ⟨zs, hzs⟩ := ih fun x hx => hall x (List.mem_cons_of_mem a hx)
    exact ⟨y :: zs, by simp [mapOption, hy, hzs]⟩

/-- A comprehension one of whose element expressions raises, raises. -/
theorem mapOption_eq_none {β γ : Type} {f : β → Option γ} :
    ∀ {xs : List β} {x : β}, x ∈ xs → f x = none → mapOption f xs = none := by
  intro xs
  induction xs with
  | nil =>
    intro x hx
    simp at hx
  | cons a as ih =>
    intro x hx hfx
    rcases List.mem_cons.mp hx with h | h
    · subst h
      simp [mapOption, hfx]
    · cases hfa : f a with
      | none => simp [mapOption, hfa]
      | some y => simp [mapOption, hfa, ih h hfx]

/-! Characterization lemmas for the embedded operations. -/

/-- Whatever the inference outcome, the returned global pipeline slot holds
the pipeline the call used. -/
theorem extract_embeddings_snd {α : Type} [ToString α] (env : Env α)
    (rows : List InputRow) (batch_size : Int) (model_config : ModelConfiguration)
    (st : Option (Pipeline α)) :
    (extract_embeddings env rows batch_size model_config st).2
      = some (currentPipeline env batch_size model_config st) := by
  unfold extract_embeddings
  cases h : _execute_inference (currentPipeline env batch_size model_config st).run
      (rows.map (·.text)) <;> simp [h]

/-- When the inference step raises, so does the whole call. -/
theorem extract_embeddings_fst_none {α : Type} [ToString α] (env : Env α)
    (rows : List InputRow) (batch_size : Int) (model_config : ModelConfiguration)
    (st : Option (Pipeline α))
    (hexec : _execute_inference (currentPipeline env batch_size model_config st).run
        (rows.map (·.text)) = none) :
    (extract_embeddings env rows batch_size model_config st).1 = none := by
  unfold extract_embeddings
  simp [hexec]

/-- When the inference step succeeds, the result is the output-building
comprehension over `range (len outputs)`. -/
theorem extract_embeddings_fst {α : Type} [ToString α] (env : Env α)
    (rows : List InputRow) (batch_size : Int) (model_config : ModelConfiguration)
    (st : Option (Pipeline α)) (res : InferenceResults)
    (hexec : _execute_inference (currentPipeline env batch_size model_config st).run
        (rows.map (·.text)) = some res) :
    (extract_embeddings env rows batch_size model_config st).1
      = mapOption (buildOutputRow rows res.outputs) (List.range res.outputs.length) := by
  unfold extract_embeddings
  simp [hexec]

/-- Success shape of `_execute_inference`: inputs pass through, the index
field is the constant 0, and the outputs are the rendered embeddings. -/
theorem execute_inference_some {α : Type} [ToString α]
    (pipelineRun : List String → List (Embedding α)) (input_batch : List String)
    (res : InferenceResults)
    (h : _execute_inference pipelineRun input_batch = some res) :
    res.inputs = input_batch ∧ res.index = 0 ∧
      mapOption renderEmbedding (pipelineRun input_batch) = some res.outputs := by
  unfold _execute_inference at h
  dsimp only at h
  cases hm : mapOption renderEmbedding (pipelineRun input_batch) with
  | none => rw [hm] at h; simp at h
  | some outs =>
    rw [hm] at h
    simp only [Option.some.injEq] at h
    subst h
    simp

/-- Both subscripts in range: the element expression succeeds. -/
theorem buildOutputRow_isSome {rows : List InputRow} {outputs : List String} {idx : Nat}
    (h1 : idx < rows.length) (h2 : idx < outputs.length) :
    (buildOutputRow rows outputs idx).isSome := by
  unfold buildOutputRow
  rw [List.getElem?_eq_getElem h1, List.getElem?_eq_getElem h2]
  rfl

/-- Row subscript out of range: the element expression raises. -/
theorem buildOutputRow_eq_none {rows : List InputRow} {outputs : List String} {idx : Nat}
    (h1 : rows.length ≤ idx) :
    buildOutputRow rows outputs idx = none := by
  unfold buildOutputRow
  rw [List.getElem?_eq_none h1]

/-- Shape of a successful element: idx copied from the row at the same
position, embeddings copied from the output at the same position. -/
theorem buildOutputRow_eq_some {rows : List InputRow} {outputs : List String} {idx : Nat}
    {o : OutputRow} (h : buildOutputRow rows outputs idx = some o) :
    ∃ row out, rows[idx]? = some row ∧ outputs[idx]? = some out ∧
      o = { idx := row.idx, embeddings := out } := by
  unfold buildOutputRow at h
  cases hr : rows[idx]? with
  | none => rw [hr] at h; simp at h
  | some row =>
    cases hs : outputs[idx]? with
    | none => rw [hr, hs] at h; simp at h
    | some out =>
      rw [hr, hs] at h
      simp only [Option.some.injEq] at h
      exact ⟨row, out, rfl, rfl, h.symm⟩

/-! The claim theorems. -/

/-- Claim C8: the device-selection helper always returns device index 0,
whatever environment (hence whatever reported accelerator count) the process
runs in; its result depends on no input. -/
theorem claim8_device_always_zero {α : Type} (env : Env α) : _get_cuda_device = 0 := rfl

/-- Claim C3: the process-wide pipeline cache is initialized at most once.
On a first call (cache empty) the pipeline is constructed and stored; on any
later call (cache holding `p`) the identical handle `p` is kept, pipeline
construction not being invoked; and after any call the cache is nonempty, so
no transition back to the uninitialized state exists. -/
theorem claim3_pipeline_cache_once {α : Type} [ToString α] (env : Env α)
    (rows : List InputRow) (batch_size : Int) (model_config : ModelConfiguration)
    (p : Pipeline α) (st : Option (Pipeline α)) :
    (extract_embeddings env rows batch_size model_config none).2
        = some (_create_embedding_pipeline env _get_cuda_device batch_size model_config) ∧
    (extract_embeddings env rows batch_size model_config (some p)).2 = some p ∧
    ((extract_embeddings env rows batch_size model_config st).2).isSome = true := by
  refine ⟨?_, ?_, ?_⟩ <;> rw [extract_embeddings_snd] <;> rfl

/-- Claim C7: with the pipeline cache as left by a first call, a second call
on the same rows (hence identical input text) returns the identical rendered
result, whatever batch size the second call passes: the rendering step adds
no nondeterminism beyond the (deterministic) backend. -/
theorem claim7_rendering_deterministic {α : Type} [ToString α] (env : Env α)
    (rows : List InputRow) (bs1 bs2 : Int) (model_config : ModelConfiguration) :
    (extract_embeddings env rows bs2 model_config
        (extract_embeddings env rows bs1 model_config none).2).1
      = (extract_embeddings env rows bs1 model_config none).1 := by
  rw [extract_embeddings_snd]
  rfl

/-- Claim C6: a later call passing a different batch size leaves the cached
pipeline — and so its configured batch size — unchanged, while the call that
constructs the pipeline does configure it with the passed batch size. -/
theorem claim6_batch_size_stale {α : Type} [ToString α] (env : Env α)
    (rows : List InputRow) (model_config : ModelConfiguration)
    (p : Pipeline α) (bs bs2 : Int) (hne : bs2 ≠ p.batch_size) :
    (extract_embeddings env rows bs2 model_config (some p)).2 = some p ∧
    ((extract_embeddings env rows bs2 model_config (some p)).2).map Pipeline.batch_size
        = some p.batch_size ∧
    ((extract_embeddings env rows bs model_config none).2).map Pipeline.batch_size
        = some bs := by
  refine ⟨?_, ?_, ?_⟩ <;> rw [extract_embeddings_snd] <;> rfl

/-- Claim C1: for an input batch whose count the inference pipeline
preserves, every row of a returned result carries the `idx` of the input row
at the same position, whatever the rows' text content. -/
theorem claim1_output_idx_positional {α : Type} [ToString α] (env : Env α)
    (rows : List InputRow) (batch_size : Int) (model_config : ModelConfiguration)
    (st : Option (Pipeline α)) (out : List OutputRow) (i : Nat) (o : OutputRow)
    (r : InputRow)
    (hcount : ((currentPipeline env batch_size model_config st).run
        (rows.map (·.text))).length = rows.length)
    (hout : (extract_embeddings env rows batch_size model_config st).1 = some out)
    (ho : out[i]? = some o) (hr : rows[i]? = some r) :
    o.idx = r.idx := by
  cases hexec : _execute_inference (currentPipeline env batch_size model_config st).run
      (rows.map (·.text)) with
  | none =>
    rw [extract_embeddings_fst_none env rows batch_size model_config st hexec] at hout
    exact absurd hout (by simp)
  | some res =>
    rw [extract_embeddings_fst env rows batch_size model_config st res hexec] at hout
    have hi_lt : i < out.length := (List.getElem?_eq_some.mp ho).1
    have hlen : out.length = res.outputs.length := by
      simpa using mapOption_length hout
    have hrange : (List.range res.outputs.length)[i]? = some i := by
      rw [List.getElem?_range (hlen ▸ hi_lt)]
    obtain ⟨y, hy, hfy⟩ := mapOption_getElem? hout hrange
    rw [ho] at hy
    obtain rfl : o = y := by simpa using hy
    obtain ⟨row, s, hrow, _, rfl⟩ := buildOutputRow_eq_some hfy
    rw [hr] at hrow
    obtain rfl : r = row := by simpa using hrow
    rfl

/-- Claim C2: for a batch of rows with distinct indices, when the backend
returns one well-formed embedding per input text, the call succeeds and the
result has exactly one output row per input row. -/
theorem claim2_length_preserved {α : Type} [ToString α] (env : Env α)
    (rows : List InputRow) (batch_size : Int) (model_config : ModelConfiguration)
    (st : Option (Pipeline α))
    (hnodup : (rows.map InputRow.idx).Nodup)
    (hcount : ((currentPipeline env batch_size model_config st).run
        (rows.map (·.text))).length = rows.length)
    (hwf : ∀ e ∈ (currentPipeline env batch_size model_config st).run (rows.map (·.text)),
        (renderEmbedding e).isSome) :
    ((extract_embeddings env rows batch_size model_config st).1).map List.length
      = some rows.length := by
  obtain ⟨outs, houts⟩ := mapOption_isSome hwf
  have hexec : _execute_inference (currentPipeline env batch_size model_config st).run
      (rows.map (·.text)) = some ⟨rows.map (·.text), outs, 0⟩ := by
    unfold _execute_inference
    dsimp only
    rw [houts]
    simp
  have houtlen : outs.length = rows.length := by
    rw [mapOption_length houts, hcount]
  rw [extract_embeddings_fst env rows batch_size model_config st _ hexec]
  have hall : ∀ idx ∈ List.range (InferenceResults.mk (rows.map (·.text)) outs 0).outputs.length,
      (buildOutputRow rows (InferenceResults.mk (rows.map (·.text)) outs 0).outputs idx).isSome := by
    intro idx hidx
    have hlt : idx < outs.length := List.mem_range.mp hidx
    exact buildOutputRow_isSome (houtlen ▸ hlt) hlt
  obtain ⟨out, hbuild⟩ := mapOption_isSome hall
  rw [hbuild]
  have := mapOption_length hbuild
  simp only [List.length_range] at this
  simp [this, houtlen]

/-- Claim C5: no length check guards the positional correlation.  Whenever
the inference step returns fewer outputs than input rows, the call silently
succeeds with the shorter (mis-paired) length; whenever it returns more, the
`rows[idx]` subscript goes out of range and the call dies with no detection
of the mismatch. -/
theorem claim5_no_length_check {α : Type} [ToString α] (env : Env α)
    (rows : List InputRow) (batch_size : Int) (model_config : ModelConfiguration)
    (st : Option (Pipeline α)) (res : InferenceResults)
    (hexec : _execute_inference (currentPipeline env batch_size model_config st).run
        (rows.map (·.text)) = some res) :
    (res.outputs.length < rows.length →
      ((extract_embeddings env rows batch_size model_config st).1).map List.length
          = some res.outputs.length ∧ res.outputs.length ≠ rows.length) ∧
    (rows.length < res.outputs.length →
      (extract_embeddings env rows batch_size model_config st).1 = none) := by
  rw [extract_embeddings_fst env rows batch_size model_config st res hexec]
  constructor
  · intro hlt
    refine ⟨?_, Nat.ne_of_lt hlt⟩
    have hall : ∀ idx ∈ List.range res.outputs.length,
        (buildOutputRow rows res.outputs idx).isSome := by
      intro idx hidx
      have h2 : idx < res.outputs.length := List.mem_range.mp hidx
      exact buildOutputRow_isSome (h2.trans hlt) h2
    obtain ⟨out, hbuild⟩ := mapOption_isSome hall
    rw [hbuild]
    have := mapOption_length hbuild
    simp only [List.length_range] at this
    simp [this]
  · intro hlt
    have hmem : rows.length ∈ List.range res.outputs.length := List.mem_range.mpr hlt
    exact mapOption_eq_none hmem (buildOutputRow_eq_none le_rfl)

/-- Claim C9: the inference-execution helper passes the input list through,
renders each embedding's first sub-element's first vector space-separated at
the matching position, and carries the constant index marker 0. -/
theorem claim9_inference_results {α : Type} [ToString α]
    (pipelineRun : List String → List (Embedding α)) (input_batch : List String)
    (res : InferenceResults) (i : Nat) (v : List α) (sub : List (List α))
    (erest : List (List (List α)))
    (hres : _execute_inference pipelineRun input_batch = some res)
    (hi : (pipelineRun input_batch)[i]? = some ((v :: sub) :: erest)) :
    res.inputs = input_batch ∧ res.index = 0 ∧
    res.outputs.length = (pipelineRun input_batch).length ∧
    res.outputs[i]? = some (String.intercalate " " (v.map toString)) := by
  obtain ⟨hin, hidx, houts⟩ := execute_inference_some pipelineRun input_batch res hres
  refine ⟨hin, hidx, mapOption_length houts, ?_⟩
  obtain ⟨y, hy, hfy⟩ := mapOption_getElem? houts hi
  rw [hy]
  simp only [renderEmbedding, Option.some.injEq] at hfy
  rw [← hfy]

/-- Claim C4 counterexample: the empty-rows call does invoke the inference
step on the empty text list, and need not return an empty result without
error: with `envPhantom`, whose backend differs from the well-behaved one
only at the empty batch, the call raises (the phantom embedding makes the
comprehension read `rows[0]` of the empty row list). -/
theorem claim4_empty_batch_cex :
    (extract_embeddings envPhantom ([] : List InputRow) 1 cfgW none).1 = none ∧
    (extract_embeddings envPhantom ([] : List InputRow) 1 cfgW none).1 ≠ some [] := by
  have h : (extract_embeddings envPhantom ([] : List InputRow) 1 cfgW none).1 = none := rfl
  exact ⟨h, by simp [h]⟩

/-- Claim C4 as amended: the empty-rows call still hands the empty text list
to the inference step; whenever the pipeline in use maps the empty batch to
the empty embedding list, the call returns the empty output sequence with no
error. -/
theorem claim4_empty_batch_amended {α : Type} [ToString α] (env : Env α)
    (batch_size : Int) (model_config : ModelConfiguration) (st : Option (Pipeline α))
    (hempty : (currentPipeline env batch_size model_config st).run [] = []) :
    (extract_embeddings env ([] : List InputRow) batch_size model_config st).1
      = some [] := by
  have hexec : _execute_inference (currentPipeline env batch_size model_config st).run
      (([] : List InputRow).map (·.text)) = some ⟨[], [], 0⟩ := by
    unfold _execute_inference
    dsimp only
    simp only [List.map_nil]
    rw [hempty]
    rfl
  rw [extract_embeddings_fst env [] batch_size model_config st _ hexec]
  rfl

/-! Witnesses: each hypothesis-bearing claim theorem evaluated at a concrete
input. -/

/-- Concrete instance of claim C1 on `rowsW`: output index 7 at position 0
comes from input index 7 at position 0. -/
theorem claim1_output_idx_positional_witness :
    ((currentPipeline envW 1 cfgW none).run (rowsW.map (·.text))).length = rowsW.length ∧
    (extract_embeddings envW rowsW 1 cfgW none).1
        = some [{ idx := 7, embeddings := "0" }, { idx := 3, embeddings := "0" }] ∧
    (OutputRow.mk 7 "0").idx = (InputRow.mk 7 "a").idx :=
  ⟨rfl, rfl,
   claim1_output_idx_positional envW rowsW 1 cfgW none
     [{ idx := 7, embeddings := "0" }, { idx := 3, embeddings := "0" }] 0
     { idx := 7, embeddings := "0" } { idx := 7, text := "a" } rfl rfl rfl rfl⟩

/-- Concrete instance of claim C2 on `rowsW`: two rows in, two rows out. -/
theorem claim2_length_preserved_witness :
    (rowsW.map InputRow.idx).Nodup ∧
    ((currentPipeline envW 1 cfgW none).run (rowsW.map (·.text))).length = rowsW.length ∧
    ((extract_embeddings envW rowsW 1 cfgW none).1).map List.length = some rowsW.length :=
  ⟨by decide, rfl,
   claim2_length_preserved envW rowsW 1 cfgW none (by decide) rfl (by decide)⟩

/-- Concrete instance of the amended claim C4: with the well-behaved backend
the empty-rows call returns the empty output list. -/
theorem claim4_empty_batch_amended_witness :
    (currentPipeline envW 1 cfgW none).run [] = [] ∧
    (extract_embeddings envW ([] : List InputRow) 1 cfgW none).1 = some [] :=
  ⟨rfl, claim4_empty_batch_amended envW 1 cfgW none rfl⟩

/-- Concrete instance of claim C5: with `envOne` the inference step returns
one output for the two rows of `rowsW`, and the call silently succeeds with a
single (mis-paired) output row. -/
theorem claim5_no_length_check_witness :
    _execute_inference (currentPipeline envOne 1 cfgW none).run (rowsW.map (·.text))
        = some { inputs := ["a", "b"], outputs := ["5"], index := 0 } ∧
    ((extract_embeddings envOne rowsW 1 cfgW none).1).map List.length = some 1 :=
  ⟨rfl,
   ((claim5_no_length_check envOne rowsW 1 cfgW none
       { inputs := ["a", "b"], outputs := ["5"], index := 0 } rfl).1 (by decide)).1⟩

/-- Concrete instance of claim C6: a second call passing batch size 2 keeps
the cached pipeline, whose configured batch size stays 1. -/
theorem claim6_batch_size_stale_witness :
    (2 : Int) ≠ pipeW.batch_size ∧
    (extract_embeddings envW rowsW 2 cfgW (some pipeW)).2 = some pipeW ∧
    ((extract_embeddings envW rowsW 2 cfgW (some pipeW)).2).map Pipeline.batch_size
        = some pipeW.batch_size ∧
    ((extract_embeddings envW rowsW 1 cfgW none).2).map Pipeline.batch_size = some 1 :=
  ⟨by decide,
   (claim6_batch_size_stale envW rowsW cfgW pipeW 1 2 (by decide)).1,
   (claim6_batch_size_stale envW rowsW cfgW pipeW 1 2 (by decide)).2.1,
   (claim6_batch_size_stale envW rowsW cfgW pipeW 1 2 (by decide)).2.2⟩

/-- Concrete instance of claim C9 on a one-text batch. -/
theorem claim9_inference_results_witness :
    _execute_inference (currentPipeline envW 1 cfgW none).run ["x"]
        = some { inputs := ["x"], outputs := ["0"], index := 0 } ∧
    (({ inputs := ["x"], outputs := ["0"], index := 0 } : InferenceResults).inputs = ["x"] ∧
     ({ inputs := ["x"], outputs := ["0"], index := 0 } : InferenceResults).index = 0 ∧
     ({ inputs := ["x"], outputs := ["0"], index := 0 } : InferenceResults).outputs.length
         = ((currentPipeline envW 1 cfgW none).run ["x"]).length ∧
     ({ inputs := ["x"], outputs := ["0"], index := 0 } : InferenceResults).outputs[0]?
         = some (String.intercalate " " (([0] : List Int).map toString))) :=
  ⟨rfl,
   claim9_inference_results (currentPipeline envW 1 cfgW none).run ["x"]
     { inputs := ["x"], outputs := ["0"], index := 0 } 0 [0] [] [] rfl rfl⟩

end FeatureExtractor
